import Mathlib

set_option maxRecDepth 100000
set_option maxHeartbeats 1000000

/-!
Shallow embedding of the `algebra` crate (src/algebra/src/example.rs with the
trait surface of field.rs and ec.rs): the concrete prime-field element
`Fp25519` (four little-endian 64-bit limbs) and the concrete curve
`Curve25519` over it.  Machine integers are modelled as `Nat` with explicit
`% 2^64` wrapping where the source relies on `wrapping_add` / `wrapping_sub`
and on `u128` intermediates.  Fallible operations return `Option`.
-/

/-- Four 64-bit limbs, least significant first (the `value: [u64; 4]` field of
`Fp25519`).  Limbs are `Nat`; well-formedness (`wf`) records the `u64` range. -/
structure Limbs4 where
  l0 : Nat
  l1 : Nat
  l2 : Nat
  l3 : Nat
deriving DecidableEq, Repr

/-- One past the largest `u64`: `2^64`, the wrap modulus of a limb. -/
def W : Nat := 0x10000000000000000

/-- Limb 0 of `PRIME_MODULUS` (`2^64 - 19`). -/
def m0 : Nat := 0xFFFFFFFFFFFFFFED
/-- Limb 1 of `PRIME_MODULUS` (`2^64 - 1`). -/
def m1 : Nat := 0xFFFFFFFFFFFFFFFF
/-- Limb 2 of `PRIME_MODULUS` (`2^64 - 1`). -/
def m2 : Nat := 0xFFFFFFFFFFFFFFFF
/-- Limb 3 of `PRIME_MODULUS` (`2^63 - 1`). -/
def m3 : Nat := 0x7FFFFFFFFFFFFFFF

/-- The prime `p = 2^255 - 19` that `PRIME_MODULUS` encodes. -/
def P : Nat := 0x7FFFFFFFFFFFFFFFFFFFFFFFFFFFFFFFFFFFFFFFFFFFFFFFFFFFFFFFFFFFFFED

/-- The little-endian integer value of a limb array. -/
def Limbs4.toNat (v : Limbs4) : Nat :=
  v.l0 + 0x10000000000000000 * v.l1 +
    0x100000000000000000000000000000000 * v.l2 +
    0x1000000000000000000000000000000000000000000000000 * v.l3

/-- All four limbs are in `u64` range, as the Rust type `[u64; 4]` guarantees. -/
def Limbs4.wf (v : Limbs4) : Prop := v.l0 < W ∧ v.l1 < W ∧ v.l2 < W ∧ v.l3 < W

instance (v : Limbs4) : Decidable v.wf := by unfold Limbs4.wf; infer_instance

/-- `u64::wrapping_add`. -/
def wrapAdd (a b : Nat) : Nat := (a + b) % W

/-- `u64::wrapping_sub` (for arguments below `W`). -/
def wrapSub (a b : Nat) : Nat := (a + W - b) % W

/-- One iteration of the loop body of `Fp25519::reduce`: `acc = value[i] + carry`
(a `u128`, so no wrap), subtract the modulus limb `m` when `acc >= m` setting the
carry, and store `acc` back (for these moduli `acc` always fits a `u64`). -/
def step (v m c : Nat) : Nat × Nat :=
  if m ≤ v + c then (v + c - m, 1) else (v + c, 0)

/-- One full pass of the `for i in 0..4` loop of `Fp25519::reduce`, carry
threaded from limb to limb; returns the rewritten limbs and the final carry. -/
def reducePass (v : Limbs4) : Limbs4 × Nat :=
  (⟨(step v.l0 m0 0).1,
    (step v.l1 m1 (step v.l0 m0 0).2).1,
    (step v.l2 m2 (step v.l1 m1 (step v.l0 m0 0).2).2).1,
    (step v.l3 m3 (step v.l2 m2 (step v.l1 m1 (step v.l0 m0 0).2).2).2).1⟩,
   (step v.l3 m3 (step v.l2 m2 (step v.l1 m1 (step v.l0 m0 0).2).2).2).2)

/-- `Fp25519::reduce`: run a pass and recurse while the final carry is set.
The source recursion is modelled with fuel; each recursive call strictly
shrinks the top limb by about `m3`, so for `u64` limbs at most three passes
run (`reduceAux_fuel` below makes fuel 4 exact for all well-formed inputs). -/
def reduceAux : Nat → Limbs4 → Limbs4
  | 0, v => v
  | n + 1, v =>
    if (reducePass v).2 = 0 then (reducePass v).1 else reduceAux n (reducePass v).1

/-- `Fp25519::reduce` on a limb array. -/
def reduce (v : Limbs4) : Limbs4 := reduceAux 4 v

namespace Fp25519

/-- `Fp25519::new`: store the limbs and reduce. -/
def new (v : Limbs4) : Limbs4 := reduce v

/-- `Field::zero` for `Fp25519`. -/
def zero : Limbs4 := new ⟨0, 0, 0, 0⟩

/-- `Field::one` for `Fp25519`. -/
def one : Limbs4 := new ⟨1, 0, 0, 0⟩

/-- `Add for Fp25519`: limb-wise `wrapping_add`, then reduce. -/
def add (a b : Limbs4) : Limbs4 :=
  reduce ⟨wrapAdd a.l0 b.l0, wrapAdd a.l1 b.l1, wrapAdd a.l2 b.l2, wrapAdd a.l3 b.l3⟩

/-- `Sub for Fp25519`: limb-wise `wrapping_sub`, then reduce. -/
def sub (a b : Limbs4) : Limbs4 :=
  reduce ⟨wrapSub a.l0 b.l0, wrapSub a.l1 b.l1, wrapSub a.l2 b.l2, wrapSub a.l3 b.l3⟩

/-- One body of the inner multiplication loop: `prod = a[i]*b[j] + carry` as a
`u128`, `result[i+j] = result[i+j].wrapping_add(prod as u64)` (the carry out of
this wrapping add is discarded by the source), new carry `prod >> 64`. -/
def mulStep (ai bj r c : Nat) : Nat × Nat :=
  ((r + (ai * bj + c) % W) % W, (ai * bj + c) / W)

/-- The double loop of `Mul for Fp25519`, unrolled in source order.  Iterations
with `i + j >= 4` are skipped by the source (`if i + j < 4`), so the partial
products `(1,3)`, `(2,2)`, `(2,3)`, `(3,1)`, `(3,2)`, `(3,3)` are dropped, and
the carry at the end of each row is also dropped. -/
def mulLimbs (a b : Limbs4) : Limbs4 :=
  -- row i = 0
  let s00 := mulStep a.l0 b.l0 0 0
  let s01 := mulStep a.l0 b.l1 0 s00.2
  let s02 := mulStep a.l0 b.l2 0 s01.2
  let s03 := mulStep a.l0 b.l3 0 s02.2
  -- row i = 1 (j = 3 skipped)
  let s10 := mulStep a.l1 b.l0 s01.1 0
  let s11 := mulStep a.l1 b.l1 s02.1 s10.2
  let s12 := mulStep a.l1 b.l2 s03.1 s11.2
  -- row i = 2 (j = 2, 3 skipped)
  let s20 := mulStep a.l2 b.l0 s11.1 0
  let s21 := mulStep a.l2 b.l1 s12.1 s20.2
  -- row i = 3 (j = 1, 2, 3 skipped)
  let s30 := mulStep a.l3 b.l0 s21.1 0
  ⟨s00.1, s10.1, s20.1, s30.1⟩

/-- `Mul for Fp25519`: truncated schoolbook product, then `Self::new`. -/
def mul (a b : Limbs4) : Limbs4 := new (mulLimbs a b)

/-- `Field::square` default method: `self.clone() * self.clone()`. -/
def square (a : Limbs4) : Limbs4 := mul a a

/-- `Neg for Fp25519`: zero maps to itself; otherwise every limb `b` is
replaced by `PRIME_MODULUS[0].wrapping_sub(b)` (the source uses limb 0 of the
modulus for all four positions), then reduce. -/
def neg (a : Limbs4) : Limbs4 :=
  if a = (⟨0, 0, 0, 0⟩ : Limbs4) then a
  else reduce ⟨wrapSub m0 a.l0, wrapSub m0 a.l1, wrapSub m0 a.l2, wrapSub m0 a.l3⟩

/-- The `while e > 0` loop of `Field::pow`: conditionally multiply the old base
into the result, square the base, shift the exponent.  The source exponent is a
`u64`; fuel 64 therefore covers every source execution exactly (the loop halves
`e` each iteration and exits once it reaches 0). -/
def powLoop : Nat → Limbs4 → Limbs4 → Nat → Limbs4
  | 0, _, result, _ => result
  | fuel + 1, base, result, e =>
    if e = 0 then result
    else powLoop fuel (mul base base) (if e % 2 = 1 then mul result base else result) (e / 2)

/-- `Field::pow` for `Fp25519` (exponent a `u64`). -/
def pow (a : Limbs4) (e : Nat) : Limbs4 := powLoop 64 a one e

/-- `Field::inverse`: `None` for the zero limb array, otherwise
`self.pow(PRIME_MODULUS[0].wrapping_sub(2))` — only the low limb of `p - 2`. -/
def inverse (a : Limbs4) : Option Limbs4 :=
  if a = (⟨0, 0, 0, 0⟩ : Limbs4) then none else some (pow a (m0 - 2))

/-- `SquareRootField::sqrt`: the source is a placeholder that always returns
`None`. -/
def sqrt (_ : Limbs4) : Option Limbs4 := none

/-- `SquareRootField::legendre`: 0 on the zero array, else compare
`self.pow((PRIME_MODULUS[0] - 1) / 2)` with one. -/
def legendre (a : Limbs4) : Int :=
  if a = (⟨0, 0, 0, 0⟩ : Limbs4) then 0
  else if pow a ((m0 - 1) / 2) = one then 1 else -1

end Fp25519

/-- `AffinePoint<Fp25519>`. -/
structure Point where
  x : Limbs4
  y : Limbs4
  infinity : Bool
deriving DecidableEq, Repr

namespace Curve25519

/-- `Fp25519::new(CURVE_A)` with `CURVE_A = [486662, 0, 0, 0]`. -/
def curveA : Limbs4 := Fp25519.new ⟨486662, 0, 0, 0⟩

/-- `Curve25519::identity`: the point at infinity with zero coordinates. -/
def identity : Point := ⟨Fp25519.zero, Fp25519.zero, true⟩

/-- `Curve25519::generator` (the y limb values are the source constants). -/
def generator : Point :=
  ⟨Fp25519.new ⟨9, 0, 0, 0⟩,
   Fp25519.new ⟨0x5F51E65E475F794B, 0x1234567890ABCDEF,
                0xFEDCBA9876543210, 0x123456789ABCDEF0⟩,
   false⟩

/-- `Curve25519::order` as a limb list. -/
def orderLimbs : List Nat :=
  [0x1000000000000000, 0x0000000000000000, 0x14DEF9DEA2F79CD6, 0x5812631A5CF5D3ED]

/-- `Curve25519::double_point`.  The `.unwrap()` on the inverse is modelled with
`Option.getD`: on the source's guarded path the argument of `inverse` is the
zero array only when the guard already returned, and a `None` would panic. -/
def double (p : Point) : Point :=
  if p.infinity = true ∨ p.y = (⟨0, 0, 0, 0⟩ : Limbs4) then identity
  else
    let slope :=
      Fp25519.mul
        (Fp25519.add (Fp25519.mul (Fp25519.square p.x) (Fp25519.new ⟨3, 0, 0, 0⟩)) curveA)
        ((Fp25519.inverse (Fp25519.mul p.y (Fp25519.new ⟨2, 0, 0, 0⟩))).getD ⟨0, 0, 0, 0⟩)
    let x3 := Fp25519.sub (Fp25519.sub (Fp25519.square slope) p.x) p.x
    let y3 := Fp25519.sub (Fp25519.mul slope (Fp25519.sub p.x x3)) p.y
    ⟨x3, y3, false⟩

/-- `Curve25519::add_points`, with the same `Option.getD` modelling of
`.unwrap()` as in `double`. -/
def addPoints (p1 p2 : Point) : Point :=
  if p1.infinity = true then p2
  else if p2.infinity = true then p1
  else if p1.x = p2.x then
    if p1.y = p2.y then double p1 else identity
  else
    let slope :=
      Fp25519.mul (Fp25519.sub p2.y p1.y)
        ((Fp25519.inverse (Fp25519.sub p2.x p1.x)).getD ⟨0, 0, 0, 0⟩)
    let x3 := Fp25519.sub (Fp25519.sub (Fp25519.square slope) p1.x) p2.x
    let y3 := Fp25519.sub (Fp25519.mul slope (Fp25519.sub p1.x x3)) p1.y
    ⟨x3, y3, false⟩

/-- The `for _ in 0..64` loop of `Curve25519::scalar_mul` over one limb:
conditionally add `temp` into `result`, then always double `temp` and shift the
bits.  Fuel is the fixed iteration count 64 of the source loop. -/
def scalarBitLoop : Nat → Point → Point → Nat → Point × Point
  | 0, result, temp, _ => (result, temp)
  | n + 1, result, temp, bits =>
    scalarBitLoop n (if bits % 2 = 1 then addPoints result temp else result)
      (double temp) (bits / 2)

/-- The closure folded over the scalar limbs: run the 64-bit loop on one limb. -/
def scalarLimbStep (rt : Point × Point) (s : Nat) : Point × Point :=
  scalarBitLoop 64 rt.1 rt.2 s

/-- `Curve25519::scalar_mul`: fold the per-limb loop over the scalar slice,
starting from the identity with `temp = point`. -/
def scalarMul (p : Point) (scalar : List Nat) : Point :=
  (scalar.foldl scalarLimbStep (identity, p)).1

/-- `Curve25519::is_on_curve`: true at infinity, otherwise compare
`y.square()` with `x.pow(3) + a * x` (no `b` term appears in the source). -/
def isOnCurve (p : Point) : Bool :=
  if p.infinity = true then true
  else decide (Fp25519.square p.y =
    Fp25519.add (Fp25519.pow p.x 3) (Fp25519.mul curveA p.x))

end Curve25519

/-! ## General lemmas about the embedding -/

theorem W_eq : W = 2 ^ 64 := by norm_num [W]

theorem P_eq : P = 2 ^ 255 - 19 := by norm_num [P]

theorem mod_W_lt (x : Nat) : x % W < W := Nat.mod_lt x (by norm_num [W])

/-- Case analysis for one limb step of `reduce`: either no subtraction happened
(carry 0) or the modulus limb was subtracted once (carry 1). -/
theorem step_spec (v m c : Nat) :
    ((step v m c).2 = 0 ∧ (step v m c).1 = v + c ∧ v + c < m) ∨
    ((step v m c).2 = 1 ∧ (step v m c).1 + m = v + c) := by
  unfold step
  split
  next h => exact Or.inr ⟨rfl, by omega⟩
  next h => exact Or.inl ⟨rfl, rfl, by omega⟩

/-- One pass of `reduce` keeps limbs in `u64` range, ends with carry 0 or 1;
carry 0 means the result is below `p`, and carry 1 shrinks the top limb by
nearly `m3`. -/
theorem reducePass_spec (v : Limbs4) (h : v.wf) :
    (reducePass v).1.wf ∧
    ((reducePass v).2 = 0 ∨ (reducePass v).2 = 1) ∧
    ((reducePass v).2 = 0 → (reducePass v).1.toNat < P) ∧
    ((reducePass v).2 = 1 → (reducePass v).1.l3 + m3 ≤ v.l3 + 1) := by
  obtain ⟨h0, h1, h2, h3⟩ := h
  have S0 := step_spec v.l0 m0 0
  have S1 := step_spec v.l1 m1 (step v.l0 m0 0).2
  have S2 := step_spec v.l2 m2 (step v.l1 m1 (step v.l0 m0 0).2).2
  have S3 := step_spec v.l3 m3 (step v.l2 m2 (step v.l1 m1 (step v.l0 m0 0).2).2).2
  dsimp only [reducePass, Limbs4.wf, Limbs4.toNat]
  simp only [m0, m1, m2, m3, P, W] at S0 S1 S2 S3 h0 h1 h2 h3 ⊢
  omega

/-- Every output of `reduce` on `u64` limbs is strictly below `p = 2^255 - 19`
(even though `reduce` is not a residue-preserving mod-`p` reduction). -/
theorem reduce_lt (v : Limbs4) (h : v.wf) : (reduce v).toNat < P := by
  obtain ⟨w1, c1or, lt1, d1⟩ := reducePass_spec v h
  show (if (reducePass v).2 = 0 then (reducePass v).1
        else reduceAux 3 (reducePass v).1).toNat < P
  rcases c1or with c1 | c1
  · rw [if_pos c1]; exact lt1 c1
  · rw [if_neg (by omega)]
    obtain ⟨w2, c2or, lt2, d2⟩ := reducePass_spec (reducePass v).1 w1
    show (if (reducePass (reducePass v).1).2 = 0 then (reducePass (reducePass v).1).1
          else reduceAux 2 (reducePass (reducePass v).1).1).toNat < P
    rcases c2or with c2 | c2
    · rw [if_pos c2]; exact lt2 c2
    · rw [if_neg (by omega)]
      obtain ⟨w3, c3or, lt3, d3⟩ := reducePass_spec (reducePass (reducePass v).1).1 w2
      have c3 : (reducePass (reducePass (reducePass v).1).1).2 = 0 := by
        rcases c3or with c3 | c3
        · exact c3
        · exfalso
          have e1 := d1 c1
          have e2 := d2 c2
          have e3 := d3 c3
          have hv3 : v.l3 < W := h.2.2.2
          simp only [m3, W] at e1 e2 e3 hv3
          omega
      show (if (reducePass (reducePass (reducePass v).1).1).2 = 0 then
              (reducePass (reducePass (reducePass v).1).1).1
            else reduceAux 1 (reducePass (reducePass (reducePass v).1).1).1).toNat < P
      rw [if_pos c3]; exact lt3 c3

/-- The recursion of the source `reduce` always terminates within the fuel 4
used by the embedding: any extra fuel gives the same result on `u64` limbs. -/
theorem reduceAux_fuel (v : Limbs4) (h : v.wf) (n : Nat) :
    reduceAux (n + 4) v = reduce v := by
  obtain ⟨w1, c1or, lt1, d1⟩ := reducePass_spec v h
  show (if (reducePass v).2 = 0 then (reducePass v).1
        else reduceAux (n + 3) (reducePass v).1) =
       (if (reducePass v).2 = 0 then (reducePass v).1
        else reduceAux 3 (reducePass v).1)
  rcases c1or with c1 | c1
  · rw [if_pos c1, if_pos c1]
  · rw [if_neg (by omega), if_neg (by omega)]
    obtain ⟨w2, c2or, lt2, d2⟩ := reducePass_spec (reducePass v).1 w1
    show (if (reducePass (reducePass v).1).2 = 0 then (reducePass (reducePass v).1).1
          else reduceAux (n + 2) (reducePass (reducePass v).1).1) =
         (if (reducePass (reducePass v).1).2 = 0 then (reducePass (reducePass v).1).1
          else reduceAux 2 (reducePass (reducePass v).1).1)
    rcases c2or with c2 | c2
    · rw [if_pos c2, if_pos c2]
    · rw [if_neg (by omega), if_neg (by omega)]
      obtain ⟨w3, c3or, lt3, d3⟩ := reducePass_spec (reducePass (reducePass v).1).1 w2
      have c3 : (reducePass (reducePass (reducePass v).1).1).2 = 0 := by
        rcases c3or with c3 | c3
        · exact c3
        · exfalso
          have e1 := d1 c1
          have e2 := d2 c2
          have e3 := d3 c3
          have hv3 : v.l3 < W := h.2.2.2
          simp only [m3, W] at e1 e2 e3 hv3
          omega
      show (if (reducePass (reducePass (reducePass v).1).1).2 = 0 then
              (reducePass (reducePass (reducePass v).1).1).1
            else reduceAux (n + 1) (reducePass (reducePass (reducePass v).1).1).1) =
           (if (reducePass (reducePass (reducePass v).1).1).2 = 0 then
              (reducePass (reducePass (reducePass v).1).1).1
            else reduceAux 1 (reducePass (reducePass (reducePass v).1).1).1)
      rw [if_pos c3, if_pos c3]

theorem add_toNat_lt (a b : Limbs4) : (Fp25519.add a b).toNat < P :=
  reduce_lt _ ⟨mod_W_lt _, mod_W_lt _, mod_W_lt _, mod_W_lt _⟩

theorem sub_toNat_lt (a b : Limbs4) : (Fp25519.sub a b).toNat < P :=
  reduce_lt _ ⟨mod_W_lt _, mod_W_lt _, mod_W_lt _, mod_W_lt _⟩

theorem mulLimbs_wf (a b : Limbs4) : (Fp25519.mulLimbs a b).wf :=
  ⟨mod_W_lt _, mod_W_lt _, mod_W_lt _, mod_W_lt _⟩

theorem mul_toNat_lt (a b : Limbs4) : (Fp25519.mul a b).toNat < P :=
  reduce_lt _ (mulLimbs_wf a b)

theorem one_toNat_lt : Fp25519.one.toNat < P := by decide

theorem neg_toNat_lt (a : Limbs4) : (Fp25519.neg a).toNat < P := by
  unfold Fp25519.neg
  split
  next h => rw [h]; decide
  next h => exact reduce_lt _ ⟨mod_W_lt _, mod_W_lt _, mod_W_lt _, mod_W_lt _⟩

theorem powLoop_toNat_lt (fuel : Nat) :
    ∀ (b r : Limbs4) (e : Nat), r.toNat < P → (Fp25519.powLoop fuel b r e).toNat < P := by
  induction fuel with
  | zero => intro b r e hr; exact hr
  | succ n ih =>
    intro b r e hr
    show (if e = 0 then r
          else Fp25519.powLoop n (Fp25519.mul b b)
            (if e % 2 = 1 then Fp25519.mul r b else r) (e / 2)).toNat < P
    split
    · exact hr
    · apply ih
      split
      · exact mul_toNat_lt r b
      · exact hr

theorem pow_toNat_lt (a : Limbs4) (e : Nat) : (Fp25519.pow a e).toNat < P :=
  powLoop_toNat_lt 64 a Fp25519.one e one_toNat_lt

/-! ## Claims -/

/-- Claim C1: every `Fp25519` element observable through the public interface is
fully reduced: `new` on any `u64` limb array, and the results of `zero`, `one`,
`add`, `sub`, `mul`, `neg`, `pow` and `inverse`, all represent little-endian
values strictly below `p = 2^255 - 19`. -/
theorem fp25519_fully_reduced (v a b : Limbs4) (e : Nat) (hv : v.wf) :
    (Fp25519.new v).toNat < P ∧ Fp25519.zero.toNat < P ∧ Fp25519.one.toNat < P ∧
    (Fp25519.add a b).toNat < P ∧ (Fp25519.sub a b).toNat < P ∧
    (Fp25519.mul a b).toNat < P ∧ (Fp25519.neg a).toNat < P ∧
    (Fp25519.pow a e).toNat < P ∧ (∀ r, Fp25519.inverse a = some r → r.toNat < P) := by
  refine ⟨reduce_lt v hv, by decide, one_toNat_lt, add_toNat_lt a b, sub_toNat_lt a b,
    mul_toNat_lt a b, neg_toNat_lt a, pow_toNat_lt a e, ?_⟩
  intro r hr
  unfold Fp25519.inverse at hr
  split at hr
  · exact absurd hr (by simp)
  · rw [Option.some.injEq] at hr
    exact hr ▸ pow_toNat_lt a (m0 - 2)

/-- Witness for C1 at the concrete limb arrays `[5,0,0,0]`, `[2,0,0,0]`,
`[3,0,0,0]` and exponent 7. -/
theorem fp25519_fully_reduced_witness :
    (⟨5, 0, 0, 0⟩ : Limbs4).wf ∧
    ((Fp25519.new ⟨5, 0, 0, 0⟩).toNat < P ∧ Fp25519.zero.toNat < P ∧ Fp25519.one.toNat < P ∧
     (Fp25519.add ⟨2, 0, 0, 0⟩ ⟨3, 0, 0, 0⟩).toNat < P ∧
     (Fp25519.sub ⟨2, 0, 0, 0⟩ ⟨3, 0, 0, 0⟩).toNat < P ∧
     (Fp25519.mul ⟨2, 0, 0, 0⟩ ⟨3, 0, 0, 0⟩).toNat < P ∧
     (Fp25519.neg ⟨2, 0, 0, 0⟩).toNat < P ∧
     (Fp25519.pow ⟨2, 0, 0, 0⟩ 7).toNat < P ∧
     (∀ r, Fp25519.inverse ⟨2, 0, 0, 0⟩ = some r → r.toNat < P)) :=
  ⟨by decide, fp25519_fully_reduced ⟨5, 0, 0, 0⟩ ⟨2, 0, 0, 0⟩ ⟨3, 0, 0, 0⟩ 7 (by decide)⟩

/-- Claim C2 fails on the code: the limb array `[2^64 - 19, 0, 0, 0]` represents
a value strictly below `p`, yet `Fp25519::new` rewrites it to `[0, 1, 0, 0]`
(the value `2^64`), which does not even lie in the same residue class mod `p`. -/
theorem reduce_roundtrip_bug :
    (⟨0xFFFFFFFFFFFFFFED, 0, 0, 0⟩ : Limbs4).toNat < P ∧
    Fp25519.new ⟨0xFFFFFFFFFFFFFFED, 0, 0, 0⟩ = ⟨0, 1, 0, 0⟩ ∧
    (⟨0, 1, 0, 0⟩ : Limbs4) ≠ (⟨0xFFFFFFFFFFFFFFED, 0, 0, 0⟩ : Limbs4) ∧
    (Fp25519.new ⟨0xFFFFFFFFFFFFFFED, 0, 0, 0⟩).toNat % P ≠
      (⟨0xFFFFFFFFFFFFFFED, 0, 0, 0⟩ : Limbs4).toNat % P := by decide

/-- Claim C3 fails on the code: `inverse` raises to the exponent
`PRIME_MODULUS[0] - 2 = 2^64 - 21` instead of `p - 2`, and with the truncated
multiplication `inverse([2,0,0,0])` evaluates to zero, so
`2 * inverse(2) ≠ one`. -/
theorem inverse_law_bug :
    Fp25519.inverse ⟨2, 0, 0, 0⟩ = some ⟨0, 0, 0, 0⟩ ∧
    Fp25519.mul ⟨2, 0, 0, 0⟩ ⟨0, 0, 0, 0⟩ ≠ Fp25519.one :=
  ⟨by decide, by decide⟩

/-- Claim C4 fails on the code: `neg` subtracts `PRIME_MODULUS[0]` limb-wise
rather than computing `p - value`, so `neg(one)` is not the canonical `p - 1`. -/
theorem neg_formula_bug :
    Fp25519.neg Fp25519.one =
      ⟨0xFFFFFFFFFFFFFFEC, 0xFFFFFFFFFFFFFFED, 0xFFFFFFFFFFFFFFED, 0x7FFFFFFFFFFFFFEE⟩ ∧
    (Fp25519.neg Fp25519.one).toNat ≠ P - Fp25519.one.toNat ∧
    Fp25519.neg Fp25519.zero = Fp25519.zero := by decide

/-- Claim C6: `is_on_curve` is true unconditionally on infinity-flagged points,
and on finite points it holds exactly when `y² = x³ + a·x` computed with the
code's field operations (`a = 486662`; no `b` term is checked). -/
theorem is_on_curve_spec :
    (∀ x y : Limbs4, Curve25519.isOnCurve ⟨x, y, true⟩ = true) ∧
    (∀ pt : Point, pt.infinity = false →
      (Curve25519.isOnCurve pt = true ↔
        Fp25519.square pt.y =
          Fp25519.add (Fp25519.pow pt.x 3)
            (Fp25519.mul (Fp25519.new ⟨486662, 0, 0, 0⟩) pt.x))) := by
  constructor
  · intro x y; rfl
  · intro pt h
    unfold Curve25519.isOnCurve
    rw [if_neg (by simp [h])]
    simp only [decide_eq_true_eq]
    exact Iff.rfl

/-- Witness for C6 at the concrete finite point `(0, 0)`. -/
theorem is_on_curve_spec_witness :
    (⟨⟨0, 0, 0, 0⟩, ⟨0, 0, 0, 0⟩, false⟩ : Point).infinity = false ∧
    (Curve25519.isOnCurve ⟨⟨0, 0, 0, 0⟩, ⟨0, 0, 0, 0⟩, false⟩ = true ↔
      Fp25519.square (⟨0, 0, 0, 0⟩ : Limbs4) =
        Fp25519.add (Fp25519.pow ⟨0, 0, 0, 0⟩ 3)
          (Fp25519.mul (Fp25519.new ⟨486662, 0, 0, 0⟩) ⟨0, 0, 0, 0⟩)) :=
  ⟨rfl, is_on_curve_spec.2 ⟨⟨0, 0, 0, 0⟩, ⟨0, 0, 0, 0⟩, false⟩ rfl⟩

/-- Claim C9 fails on the code: `one` is a square (`one * one = one`) yet the
stub `sqrt` still reports that no square root exists. -/
theorem sqrt_stub_cex :
    (∃ r : Limbs4, Fp25519.mul r r = Fp25519.one) ∧ Fp25519.sqrt Fp25519.one = none :=
  ⟨⟨Fp25519.one, by decide⟩, rfl⟩

/-- Claim C9 amended: `sqrt` returns an absent result for every element,
squares included — the source is a placeholder stub. -/
theorem sqrt_always_none (a : Limbs4) : Fp25519.sqrt a = none := rfl

/-- Claim C10: scalar multiplication by an empty limb slice returns the
identity point for every input point. -/
theorem scalar_mul_empty_identity (p : Point) :
    Curve25519.scalarMul p [] = Curve25519.identity := rfl

/-- Adding the canonical identity on the left returns the other point. -/
theorem addPoints_identity_left (q : Point) :
    Curve25519.addPoints Curve25519.identity q = q := rfl

/-- Once the bit word is 0, the remaining iterations of the per-limb loop only
double `temp` and never touch the accumulated result. -/
theorem bitLoop_zero_fst (n : Nat) :
    ∀ r t : Point, (Curve25519.scalarBitLoop n r t 0).1 = r := by
  induction n with
  | zero => intro r t; rfl
  | succ k ih =>
    intro r t
    show (Curve25519.scalarBitLoop k (if (0 : Nat) % 2 = 1 then Curve25519.addPoints r t else r)
          (Curve25519.double t) 0).1 = r
    rw [if_neg (by decide)]
    exact ih r (Curve25519.double t)

/-- One unfolding step of the per-limb loop. -/
theorem bitLoop_succ (n : Nat) (r t : Point) (bits : Nat) :
    Curve25519.scalarBitLoop (n + 1) r t bits =
      Curve25519.scalarBitLoop n (if bits % 2 = 1 then Curve25519.addPoints r t else r)
        (Curve25519.double t) (bits / 2) := rfl

/-- `scalar_mul` on a one-limb scalar is one run of the 64-bit loop. -/
theorem scalarMul_single (p : Point) (s : Nat) :
    Curve25519.scalarMul p [s] = (Curve25519.scalarBitLoop 64 Curve25519.identity p s).1 := by
  unfold Curve25519.scalarMul
  rw [List.foldl_cons, List.foldl_nil]
  unfold Curve25519.scalarLimbStep
  dsimp only

/-- Scalar multiplication by the single limb 2 computes
`add_points(identity, double(P))`. -/
theorem scalarMul_two (p : Point) :
    Curve25519.scalarMul p [2] =
      Curve25519.addPoints Curve25519.identity (Curve25519.double p) := by
  rw [scalarMul_single, show (64 : Nat) = 63 + 1 from rfl, bitLoop_succ]
  norm_num
  rw [show (63 : Nat) = 62 + 1 from rfl, bitLoop_succ]
  norm_num
  exact bitLoop_zero_fst 62 _ _
/-- Claim C8 fails as stated: the infinity-flagged point `(one, one, true)`
passes `is_on_curve`, yet `scalar_mul` with `[2]` returns the canonical
identity while `add_points(P, P)` returns `P` itself. -/
theorem scalar_mul_two_cex :
    Curve25519.isOnCurve ⟨Fp25519.one, Fp25519.one, true⟩ = true ∧
    Curve25519.scalarMul ⟨Fp25519.one, Fp25519.one, true⟩ [2] ≠
      Curve25519.addPoints ⟨Fp25519.one, Fp25519.one, true⟩
        ⟨Fp25519.one, Fp25519.one, true⟩ :=
  ⟨rfl, by decide⟩

/-- Claim C8 amended: for every point whose infinity flag is clear, and for the
canonical identity, `scalar_mul(P, [2]) = add_points(P, P)`; and for every
point `scalar_mul(Q, [0]) = identity`. -/
theorem scalar_mul_sanity_amended (p q : Point)
    (h : p.infinity = false ∨ p = Curve25519.identity) :
    Curve25519.scalarMul p [2] = Curve25519.addPoints p p ∧
    Curve25519.scalarMul q [0] = Curve25519.identity := by
  constructor
  · rw [scalarMul_two, addPoints_identity_left]
    rcases h with h | h
    · unfold Curve25519.addPoints
      rw [if_neg (by simp [h]), if_neg (by simp [h]), if_pos rfl, if_pos rfl]
    · subst h; decide
  · rw [scalarMul_single]
    exact bitLoop_zero_fst 64 _ _
/-- Witness for the amended C8 at the finite point `(0, 0)` and the generator. -/
theorem scalar_mul_sanity_amended_witness :
    ((⟨⟨0, 0, 0, 0⟩, ⟨0, 0, 0, 0⟩, false⟩ : Point).infinity = false ∨
      (⟨⟨0, 0, 0, 0⟩, ⟨0, 0, 0, 0⟩, false⟩ : Point) = Curve25519.identity) ∧
    (Curve25519.scalarMul ⟨⟨0, 0, 0, 0⟩, ⟨0, 0, 0, 0⟩, false⟩ [2] =
        Curve25519.addPoints ⟨⟨0, 0, 0, 0⟩, ⟨0, 0, 0, 0⟩, false⟩
          ⟨⟨0, 0, 0, 0⟩, ⟨0, 0, 0, 0⟩, false⟩ ∧
      Curve25519.scalarMul Curve25519.generator [0] = Curve25519.identity) :=
  ⟨Or.inl rfl,
   scalar_mul_sanity_amended ⟨⟨0, 0, 0, 0⟩, ⟨0, 0, 0, 0⟩, false⟩ Curve25519.generator
     (Or.inl rfl)⟩

/-- The slope branch of `add_points` written with each intermediate named, so a
concrete run can be evaluated step by step. -/
theorem addPoints_slope_eq (p1 p2 : Point) (h1 : p1.infinity = false)
    (h2 : p2.infinity = false) (hx : p1.x ≠ p2.x) (i s x3 y3 : Limbs4)
    (hi : (Fp25519.inverse (Fp25519.sub p2.x p1.x)).getD ⟨0, 0, 0, 0⟩ = i)
    (hs : Fp25519.mul (Fp25519.sub p2.y p1.y) i = s)
    (h3 : Fp25519.sub (Fp25519.sub (Fp25519.square s) p1.x) p2.x = x3)
    (h4 : Fp25519.sub (Fp25519.mul s (Fp25519.sub p1.x x3)) p1.y = y3) :
    Curve25519.addPoints p1 p2 = ⟨x3, y3, false⟩ := by
  unfold Curve25519.addPoints
  rw [if_neg (by simp [h1]), if_neg (by simp [h2]), if_neg hx]
  simp only []
  rw [hi, hs, h3, h4]

/-- Claim C5 fails as stated: the two finite points below both pass
`is_on_curve`, but `add_points` applied in the two orders returns points with
different y-coordinates. -/
theorem add_points_comm_cex :
    Curve25519.isOnCurve ⟨⟨0, 0, 0, 4022⟩, ⟨0, 0xACD200000000, 0, 0⟩, false⟩ = true ∧
    Curve25519.isOnCurve ⟨⟨0, 0, 0, 16088⟩, ⟨0, 0x159A400000000, 0, 0⟩, false⟩ = true ∧
    Curve25519.addPoints ⟨⟨0, 0, 0, 4022⟩, ⟨0, 0xACD200000000, 0, 0⟩, false⟩
        ⟨⟨0, 0, 0, 16088⟩, ⟨0, 0x159A400000000, 0, 0⟩, false⟩ ≠
      Curve25519.addPoints ⟨⟨0, 0, 0, 16088⟩, ⟨0, 0x159A400000000, 0, 0⟩, false⟩
        ⟨⟨0, 0, 0, 4022⟩, ⟨0, 0xACD200000000, 0, 0⟩, false⟩ := by
  refine ⟨by decide, by decide, ?_⟩
  rw [addPoints_slope_eq _ _ rfl rfl (by decide) ⟨0, 0, 0, 0⟩ ⟨0, 0, 0, 0⟩
        ⟨0, 0, 0, 0x7FFFFFFFFFFFB173⟩ ⟨0, 0xFFFF532E00000000, 0, 0⟩
        (by decide) (by decide) (by decide) (by decide),
      addPoints_slope_eq _ _ rfl rfl (by decide) ⟨0, 0, 0, 0⟩ ⟨0, 0, 0, 0⟩
        ⟨0, 0, 0, 0x7FFFFFFFFFFFB173⟩ ⟨0, 0xFFFEA65C00000000, 0, 0⟩
        (by decide) (by decide) (by decide) (by decide)]
  decide

/-- Claim C5 amended: `add_points` commutes whenever the two infinity flags
differ, the arguments are equal, or both points are finite with the same
x-coordinate; for distinct finite x-coordinates (and for distinct
infinity-flagged representations) it can disagree. -/
theorem add_points_comm_amended (p q : Point)
    (h : (p.infinity = true ∧ q.infinity = false) ∨
         (p.infinity = false ∧ q.infinity = true) ∨ p = q ∨
         (p.infinity = false ∧ q.infinity = false ∧ p.x = q.x)) :
    Curve25519.addPoints p q = Curve25519.addPoints q p := by
  rcases h with ⟨h1, h2⟩ | ⟨h1, h2⟩ | h | ⟨h1, h2, h3⟩
  · simp [Curve25519.addPoints, h1, h2]
  · simp [Curve25519.addPoints, h1, h2]
  · rw [h]
  · by_cases hy : p.y = q.y
    · have hpq : p = q := by cases p; cases q; simp_all
      rw [hpq]
    · have hy2 : ¬(q.y = p.y) := fun hh => hy hh.symm
      simp [Curve25519.addPoints, h1, h2, h3, hy, hy2]

/-- Witness for the amended C5: the canonical identity against the finite point
`(0, 0)` (infinity flags differ). -/
theorem add_points_comm_amended_witness :
    ((Curve25519.identity.infinity = true ∧
        (⟨⟨0, 0, 0, 0⟩, ⟨0, 0, 0, 0⟩, false⟩ : Point).infinity = false) ∨
      (Curve25519.identity.infinity = false ∧
        (⟨⟨0, 0, 0, 0⟩, ⟨0, 0, 0, 0⟩, false⟩ : Point).infinity = true) ∨
      Curve25519.identity = (⟨⟨0, 0, 0, 0⟩, ⟨0, 0, 0, 0⟩, false⟩ : Point) ∨
      (Curve25519.identity.infinity = false ∧
        (⟨⟨0, 0, 0, 0⟩, ⟨0, 0, 0, 0⟩, false⟩ : Point).infinity = false ∧
        Curve25519.identity.x = (⟨⟨0, 0, 0, 0⟩, ⟨0, 0, 0, 0⟩, false⟩ : Point).x)) ∧
    Curve25519.addPoints Curve25519.identity ⟨⟨0, 0, 0, 0⟩, ⟨0, 0, 0, 0⟩, false⟩ =
      Curve25519.addPoints ⟨⟨0, 0, 0, 0⟩, ⟨0, 0, 0, 0⟩, false⟩ Curve25519.identity :=
  ⟨Or.inl ⟨rfl, rfl⟩,
   add_points_comm_amended Curve25519.identity ⟨⟨0, 0, 0, 0⟩, ⟨0, 0, 0, 0⟩, false⟩
     (Or.inl ⟨rfl, rfl⟩)⟩

/-- For any base whose square is 1 mod `n`, every even power is 1 mod `n`. -/
theorem pow_sq_one_mod (a n e : Nat) (h : a ^ 2 % n = 1 % n) :
    a ^ (2 * e) % n = 1 % n := by
  rw [pow_mul, Nat.pow_mod, h, ← Nat.pow_mod, one_pow]

/-- Claim C7 fails on the code: `legendre` exponentiates by
`(PRIME_MODULUS[0] - 1) / 2 = 2^63 - 10` instead of `(p - 1) / 2`, and it
classifies `p - 1` as a non-residue even though
`(p - 1)^((p - 1)/2) ≡ 1 (mod p)` (the exponent is even), so Euler's criterion
with the full exponent demands `+1` there. -/
theorem legendre_euler_bug :
    (⟨0xFFFFFFFFFFFFFFEC, 0xFFFFFFFFFFFFFFFF, 0xFFFFFFFFFFFFFFFF,
        0x7FFFFFFFFFFFFFFF⟩ : Limbs4).toNat = P - 1 ∧
    Fp25519.legendre ⟨0xFFFFFFFFFFFFFFEC, 0xFFFFFFFFFFFFFFFF, 0xFFFFFFFFFFFFFFFF,
        0x7FFFFFFFFFFFFFFF⟩ = -1 ∧
    (P - 1) ^ ((P - 1) / 2) % P = 1 := by
  refine ⟨by decide, by decide, ?_⟩
  have h2 : (P - 1) ^ 2 = P * (P - 2) + 1 := by norm_num [P]
  have h1 : (P - 1) ^ 2 % P = 1 % P := by rw [h2, Nat.mul_add_mod]
  have h3 : (P - 1) / 2 = 2 * ((P - 1) / 4) := by norm_num [P]
  have key := pow_sq_one_mod (P - 1) P ((P - 1) / 4) h1
  rw [h3, key]
  exact Nat.mod_eq_of_lt (by norm_num [P])
